import Mathlib

/-!
# Verification of the nexus-ai core against its specification

Shallow embedding of the security- and persistence-relevant parts of the
`nexus` command-line assistant (session store, prompt-name sanitizer,
path-security validator, cache manager, provider registry).  Python strings
are modelled as `List Char`, Python dicts as association lists, the
filesystem as an association list from file names to file contents, and
`datetime` / `time.time()` values as integers.  Fallible Python code is
modelled with `Option` / `Except`; a Python `raise` that no enclosing
`except` clause catches is an `Except.error` value.
-/

namespace Nexus

/-- Python `str` modelled as a list of characters. -/
abbrev Str := List Char

/-- Coerce a Lean string literal into the model's string type. -/
def strOf (s : String) : Str := s.data

/-- The ASCII whitespace characters stripped by Python's `str.strip()`
(the model restricts attention to the ASCII range). -/
def isPyWhitespace (c : Char) : Bool :=
  c = ' ' || c = '\t' || c = '\n' || c = '\r' || c = '\x0b' || c = '\x0c'

/-- `str.lstrip`-style left strip by a character predicate. -/
def lstripBy (p : Char → Bool) (l : Str) : Str := l.dropWhile p

/-- `str.rstrip`-style right strip by a character predicate. -/
def rstripBy (p : Char → Bool) (l : Str) : Str := (l.reverse.dropWhile p).reverse

/-- Strip from both ends by a character predicate. -/
def stripBy (p : Char → Bool) (l : Str) : Str := rstripBy p (lstripBy p l)

/-- Python `str.strip()` (whitespace strip). -/
def pyStrip (l : Str) : Str := stripBy isPyWhitespace l

/-- Python `str.replace(a, b)` for single characters. -/
def replaceChar (a b : Char) (l : Str) : Str := l.map (fun c => if c = a then b else c)

/-- `SessionManager._sanitize_name`'s reserved characters `<>:"/\|?*`. -/
def sessionInvalidChars : Str := ['<', '>', ':', '"', '/', '\\', '|', '?', '*']

/-- `SessionManager._sanitize_name`: replace each character of
`<>:"/\|?*` by `_` (the source loops `sanitized.replace(char, "_")`
over the reserved characters), then `strip()` the result. -/
def sessionSanitize (name : Str) : Str :=
  pyStrip (sessionInvalidChars.foldl (fun acc c => replaceChar c '_' acc) name)

/-- Pointwise form of the session-name character replacement. -/
def sessionFix (c : Char) : Char := if c ∈ sessionInvalidChars then '_' else c

theorem foldl_replaceChar (cs l : Str) :
    cs.foldl (fun acc c => replaceChar c '_' acc) l
      = l.map (fun x => cs.foldl (fun a c => if a = c then '_' else a) x) := by
  induction cs generalizing l with
  | nil => simp
  | cons c cs ih =>
    simp only [List.foldl_cons]
    rw [ih (replaceChar c '_' l)]
    simp [replaceChar, List.map_map, Function.comp]

theorem fold_step_eq_sessionFix (x : Char) :
    sessionInvalidChars.foldl (fun a c => if a = c then '_' else a) x = sessionFix x := by
  by_cases h : x ∈ sessionInvalidChars
  · rw [sessionFix, if_pos h]
    simp only [sessionInvalidChars, List.mem_cons, List.not_mem_nil, or_false] at h
    rcases h with h | h | h | h | h | h | h | h | h <;> subst h <;> decide
  · rw [sessionFix, if_neg h]
    simp only [sessionInvalidChars, List.mem_cons, List.not_mem_nil, or_false] at h
    push_neg at h
    obtain ⟨h1, h2, h3, h4, h5, h6, h7, h8, h9⟩ := h
    simp only [sessionInvalidChars, List.foldl_cons, List.foldl_nil,
      if_neg h1, if_neg h2, if_neg h3, if_neg h4, if_neg h5, if_neg h6, if_neg h7,
      if_neg h8, if_neg h9]

theorem sessionSanitize_eq_map (name : Str) :
    sessionSanitize name = pyStrip (name.map sessionFix) := by
  have hmap : name.map (fun x => sessionInvalidChars.foldl (fun a c => if a = c then '_' else a) x)
      = name.map sessionFix :=
    List.map_congr_left (fun x _ => fold_step_eq_sessionFix x)
  rw [sessionSanitize, foldl_replaceChar, hmap]

theorem dropWhile_dropWhile (p : Char → Bool) (l : Str) :
    (l.dropWhile p).dropWhile p = l.dropWhile p := by
  induction l with
  | nil => rfl
  | cons c t ih =>
    by_cases h : p c
    · simp [List.dropWhile_cons, h, ih]
    · simp [List.dropWhile_cons, h]

theorem head?_dropWhile (p : Char → Bool) (l : Str) (c : Char)
    (h : (l.dropWhile p).head? = some c) : p c = false := by
  induction l with
  | nil => simp at h
  | cons a t ih =>
    by_cases ha : p a
    · rw [List.dropWhile_cons, if_pos ha] at h
      exact ih h
    · rw [List.dropWhile_cons, if_neg ha] at h
      simp at h
      rw [← h]
      simpa using ha

theorem dropWhile_suffix (p : Char → Bool) (l : Str) :
    ∃ s, l = s ++ l.dropWhile p := by
  induction l with
  | nil => exact ⟨[], rfl⟩
  | cons c t ih =>
    by_cases h : p c
    · obtain ⟨s, hs⟩ := ih
      exact ⟨c :: s, by rw [List.dropWhile_cons, if_pos h, List.cons_append, ← hs]⟩
    · exact ⟨[], by rw [List.dropWhile_cons, if_neg h, List.nil_append]⟩

theorem mem_dropWhile (p : Char → Bool) (l : Str) (x : Char)
    (h : x ∈ l.dropWhile p) : x ∈ l := by
  obtain ⟨s, hs⟩ := dropWhile_suffix p l
  rw [hs]
  exact List.mem_append_right s h

theorem rstripBy_prefix (p : Char → Bool) (l : Str) :
    ∃ t, l = rstripBy p l ++ t := by
  obtain ⟨s, hs⟩ := dropWhile_suffix p l.reverse
  refine ⟨s.reverse, ?_⟩
  rw [rstripBy, ← List.reverse_append, ← hs, List.reverse_reverse]

theorem mem_stripBy (p : Char → Bool) (l : Str) (x : Char)
    (h : x ∈ stripBy p l) : x ∈ l := by
  rw [stripBy] at h
  obtain ⟨t, ht⟩ := rstripBy_prefix p (lstripBy p l)
  have : x ∈ lstripBy p l := by rw [ht]; exact List.mem_append_left t h
  exact mem_dropWhile p l x this

theorem rstripBy_rstripBy (p : Char → Bool) (l : Str) :
    rstripBy p (rstripBy p l) = rstripBy p l := by
  rw [rstripBy, rstripBy, List.reverse_reverse, dropWhile_dropWhile]

theorem lstripBy_of_head (p : Char → Bool) (l : Str)
    (h : ∀ c, l.head? = some c → p c = false) : lstripBy p l = l := by
  cases l with
  | nil => rfl
  | cons c t =>
    have := h c rfl
    rw [lstripBy, List.dropWhile_cons, if_neg (by simp [this])]

theorem head?_rstripBy (p : Char → Bool) (l : Str) (c : Char)
    (h : (rstripBy p l).head? = some c) : l.head? = some c := by
  obtain ⟨t, ht⟩ := rstripBy_prefix p l
  cases hr : rstripBy p l with
  | nil => rw [hr] at h; simp at h
  | cons a s =>
    rw [hr] at h
    simp at h
    rw [ht, hr]
    simp [h]

theorem stripBy_idem (p : Char → Bool) (l : Str) :
    stripBy p (stripBy p l) = stripBy p l := by
  rw [stripBy, stripBy]
  have hl : lstripBy p (rstripBy p (lstripBy p l)) = rstripBy p (lstripBy p l) := by
    apply lstripBy_of_head
    intro c hc
    exact head?_dropWhile p l c (head?_rstripBy p _ c hc)
  rw [hl, rstripBy_rstripBy]

theorem stripBy_eq_self (p : Char → Bool) (l : Str)
    (h : ∀ c ∈ l, p c = false) : stripBy p l = l := by
  have hl : lstripBy p l = l := by
    apply lstripBy_of_head
    intro c hc
    cases l with
    | nil => simp at hc
    | cons a t => simp at hc; exact hc ▸ h a (List.mem_cons_self a t)
  rw [stripBy, hl, rstripBy]
  have hr : l.reverse.dropWhile p = l.reverse := by
    apply lstripBy_of_head
    intro c hc
    have : c ∈ l.reverse := by
      cases hrev : l.reverse with
      | nil => rw [hrev] at hc; simp at hc
      | cons a t => rw [hrev] at hc; simp at hc; simp [hc]
    exact h c (List.mem_reverse.mp this)
  rw [hr, List.reverse_reverse]

theorem sessionFix_idem (c : Char) : sessionFix (sessionFix c) = sessionFix c := by
  unfold sessionFix
  by_cases h : c ∈ sessionInvalidChars
  · rw [if_pos h]; decide
  · rw [if_neg h, if_neg h]

/-- Session-name sanitization is idempotent. -/
theorem sessionSanitize_idem (x : Str) :
    sessionSanitize (sessionSanitize x) = sessionSanitize x := by
  rw [sessionSanitize_eq_map x, sessionSanitize_eq_map]
  have hmap : (pyStrip (x.map sessionFix)).map sessionFix = pyStrip (x.map sessionFix) := by
    have : ∀ c ∈ pyStrip (x.map sessionFix), sessionFix c = c := by
      intro c hc
      have hmem : c ∈ x.map sessionFix := mem_stripBy _ _ c hc
      obtain ⟨d, _, hd⟩ := List.mem_map.mp hmem
      rw [← hd, sessionFix_idem]
    calc (pyStrip (x.map sessionFix)).map sessionFix
        = (pyStrip (x.map sessionFix)).map id := List.map_congr_left (fun c hc => this c hc)
      _ = pyStrip (x.map sessionFix) := List.map_id _
  rw [hmap]
  conv_lhs => rw [pyStrip, pyStrip]
  rw [stripBy_idem]
  rfl

/-- JSON values (Python `json` module data).  Numbers are modelled as
integers (timestamps and token counts are the only numbers the verified
code paths store). -/
inductive Json where
  | null : Json
  | bool (b : Bool) : Json
  | num (n : Int) : Json
  | str (s : Str) : Json
  | arr (elems : List Json) : Json
  | obj (fields : List (Str × Json)) : Json

/-- First binding of a key in a Python-dict-as-association-list. -/
def getField : List (Str × Json) → Str → Option Json
  | [], _ => none
  | (k, v) :: rest, key => if key = k then some v else getField rest key

/-- Association-list lookup (used to model a directory of files keyed by
file name). -/
def assocLookup {α : Type} : List (Str × α) → Str → Option α
  | [], _ => none
  | (k, v) :: rest, key => if key = k then some v else assocLookup rest key

/-- Association-list insert-or-overwrite (a file write into a directory). -/
def assocInsert {α : Type} : List (Str × α) → Str → α → List (Str × α)
  | [], key, v => [(key, v)]
  | (k, w) :: rest, key, v =>
      if k = key then (key, v) :: rest else (k, w) :: assocInsert rest key v

theorem assocLookup_insert_self {α : Type} (st : List (Str × α)) (k : Str) (v : α) :
    assocLookup (assocInsert st k v) k = some v := by
  induction st with
  | nil => simp [assocInsert, assocLookup]
  | cons hd tl ih =>
    obtain ⟨k', w⟩ := hd
    by_cases h : k' = k
    · simp [assocInsert, if_pos h, assocLookup]
    · rw [assocInsert, if_neg h, assocLookup, if_neg (fun e => h e.symm)]
      exact ih

/-! ## CacheManager (`nexus/utils/cache.py`)

`CacheManager.get`/`set` read and write one JSON file per key
(`{key}.json`).  The file system for one key is modelled by `CacheFile`;
Python exceptions raised inside the method bodies are modelled with
`Except PyExc`, and the `except` clauses of the source are translated as
handlers over those error values. -/

/-- The Python exception classes relevant to the cache code paths. -/
inductive PyExc where
  | typeError
  | keyError
  | osError
  | jsonDecodeError
  | valueError
  deriving DecidableEq, Repr

/-- State of a cache file on disk: absent, unreadable (`open`/read raises
`OSError`), present but not valid JSON, or parseable JSON content. -/
inductive CacheFile where
  | missing
  | ioError
  | invalidJson
  | jsonContent (j : Json)

/-- A Python value passed to `CacheManager.set`: either JSON-representable
or not serializable (`json.dump` raises `TypeError` on it). -/
inductive PyVal where
  | js (j : Json)
  | unserializable

/-- `json.dump`'s view of a value. -/
def serializeVal : PyVal → Except PyExc Json
  | .js j => .ok j
  | .unserializable => .error .typeError

/-- Python `data["key"]` subscripting on a decoded JSON value: `KeyError`
for a dict without the key, `TypeError` for non-dict values. -/
def pySubscript (j : Json) (key : Str) : Except PyExc Json :=
  match j with
  | .obj fields =>
    match getField fields key with
    | some v => .ok v
    | none => .error .keyError
  | _ => .error .typeError

/-- Using a decoded JSON value as a number (`time.time() - data["timestamp"]`):
numbers are used directly, Python `bool` coerces to 0/1, anything else
raises `TypeError`. -/
def pyAsNumber (j : Json) : Except PyExc Int :=
  match j with
  | .num n => .ok n
  | .bool b => .ok (if b then 1 else 0)
  | _ => .error .typeError

/-- The `try:` body of `CacheManager.get` (file already known to exist):
open+`json.load`, expiry test on `data["timestamp"]`, then `data["value"]`. -/
def cacheGetBody (file : CacheFile) (now expiry : Int) : Except PyExc (Option Json) :=
  match file with
  | .missing => .ok none
  | .ioError => .error .osError
  | .invalidJson => .error .jsonDecodeError
  | .jsonContent j => do
    let tsj ← pySubscript j (strOf "timestamp")
    let ts ← pyAsNumber tsj
    if now - ts > expiry then
      pure none
    else do
      let v ← pySubscript j (strOf "value")
      pure (some v)

/-- `CacheManager.get`: the existence check returns `None` for a missing
file; the `except json.JSONDecodeError / OSError / KeyError` clauses turn
those three errors into `None`; any other exception propagates. -/
def cacheGet (file : CacheFile) (now expiry : Int) : Except PyExc (Option Json) :=
  match file with
  | .missing => .ok none
  | f =>
    match cacheGetBody f now expiry with
    | .ok v => .ok v
    | .error e =>
      if e = .jsonDecodeError ∨ e = .osError ∨ e = .keyError then .ok none
      else .error e

/-- The `try:` body of `CacheManager.set`: serialize
`{"timestamp": time.time(), "value": value}` and write it; `ioFails`
models the write raising `OSError`. -/
def cacheSetBody (ioFails : Bool) (now : Int) (v : PyVal) : Except PyExc CacheFile := do
  let j ← serializeVal v
  if ioFails then .error .osError
  else .ok (.jsonContent (.obj [(strOf "timestamp", .num now), (strOf "value", j)]))

/-- `CacheManager.set`: the `except OSError` and
`except (TypeError, ValueError)` clauses log and swallow the error,
leaving the file unchanged. -/
def cacheSet (ioFails : Bool) (file : CacheFile) (now : Int) (v : PyVal) :
    Except PyExc CacheFile :=
  match cacheSetBody ioFails now v with
  | .ok f => .ok f
  | .error e =>
    if e = .osError ∨ e = .typeError ∨ e = .valueError then .ok file
    else .error e

/-! ## Session data model (`nexus/session/models.py`)

`Turn` and `Session` are pydantic models; `datetime` fields are modelled
as integer timestamps, `Dict[str, int]` / `Dict[str, Any]` as association
lists.  `model_dump_json` / `model_validate_json` are modelled by
`encodeTurn`/`encodeSession` and `decodeTurn`/`decodeSession` over the
`Json` type. -/

/-- `Turn.role : Literal["user", "assistant"]`. -/
inductive Role where
  | user
  | assistant
  deriving DecidableEq, Repr

structure Turn where
  id : Str
  timestamp : Int
  role : Role
  content : Str
  model : Str
  tokens : List (Str × Int)
  duration_ms : Option Int
  metadata : List (Str × Json)

structure Session where
  id : Str
  name : Str
  created_at : Int
  updated_at : Int
  model : Str
  provider : Str
  total_tokens : Int
  turns : List Turn

def encodeRole : Role → Str
  | .user => strOf "user"
  | .assistant => strOf "assistant"

def decodeRole (s : Str) : Option Role :=
  if s = strOf "user" then some .user
  else if s = strOf "assistant" then some .assistant
  else none

def encodeOptInt : Option Int → Json
  | none => .null
  | some n => .num n

def decodeOptInt : Json → Option (Option Int)
  | .null => some none
  | .num n => some (some n)
  | _ => none

def asStr : Json → Option Str
  | .str s => some s
  | _ => none

def asNum : Json → Option Int
  | .num n => some n
  | _ => none

def asObj : Json → Option (List (Str × Json))
  | .obj f => some f
  | _ => none

def asArr : Json → Option (List Json)
  | .arr a => some a
  | _ => none

/-- Sequential fallible parse of a list (Python iterating and failing on
the first bad element). -/
def optMapM {A B : Type} (f : A → Option B) : List A → Option (List B)
  | [] => some []
  | a :: t => do
    let b ← f a
    let r ← optMapM f t
    pure (b :: r)

/-- A `Dict[str, int]` as JSON. -/
def encodeTokens (tokens : List (Str × Int)) : Json :=
  .obj (tokens.map (fun p => (p.1, Json.num p.2)))

def decodeTokens (fields : List (Str × Json)) : Option (List (Str × Int)) :=
  optMapM (fun p => (asNum p.2).map (fun n => (p.1, n))) fields

def encodeTurn (t : Turn) : Json :=
  .obj [ (strOf "id", .str t.id),
         (strOf "timestamp", .num t.timestamp),
         (strOf "role", .str (encodeRole t.role)),
         (strOf "content", .str t.content),
         (strOf "model", .str t.model),
         (strOf "tokens", encodeTokens t.tokens),
         (strOf "duration_ms", encodeOptInt t.duration_ms),
         (strOf "metadata", .obj t.metadata) ]

def decodeTurn (j : Json) : Option Turn := do
  let f ← asObj j
  let i ← getField f (strOf "id") >>= asStr
  let ts ← getField f (strOf "timestamp") >>= asNum
  let r ← getField f (strOf "role") >>= asStr >>= decodeRole
  let c ← getField f (strOf "content") >>= asStr
  let m ← getField f (strOf "model") >>= asStr
  let tok ← getField f (strOf "tokens") >>= asObj >>= decodeTokens
  let d ← getField f (strOf "duration_ms") >>= decodeOptInt
  let md ← getField f (strOf "metadata") >>= asObj
  pure ⟨i, ts, r, c, m, tok, d, md⟩

def encodeSession (s : Session) : Json :=
  .obj [ (strOf "id", .str s.id),
         (strOf "name", .str s.name),
         (strOf "created_at", .num s.created_at),
         (strOf "updated_at", .num s.updated_at),
         (strOf "model", .str s.model),
         (strOf "provider", .str s.provider),
         (strOf "total_tokens", .num s.total_tokens),
         (strOf "turns", .arr (s.turns.map encodeTurn)) ]

def decodeSession (j : Json) : Option Session := do
  let f ← asObj j
  let i ← getField f (strOf "id") >>= asStr
  let n ← getField f (strOf "name") >>= asStr
  let ca ← getField f (strOf "created_at") >>= asNum
  let ua ← getField f (strOf "updated_at") >>= asNum
  let m ← getField f (strOf "model") >>= asStr
  let p ← getField f (strOf "provider") >>= asStr
  let tt ← getField f (strOf "total_tokens") >>= asNum
  let ts ← getField f (strOf "turns") >>= asArr
  let turns ← optMapM decodeTurn ts
  pure ⟨i, n, ca, ua, m, p, tt, turns⟩

theorem decodeRole_encodeRole (r : Role) : decodeRole (encodeRole r) = some r := by
  cases r <;> rfl

theorem optMapM_roundtrip {A B : Type} (g : A → B) (f : B → Option A)
    (h : ∀ a, f (g a) = some a) (l : List A) : optMapM f (l.map g) = some l := by
  induction l with
  | nil => rfl
  | cons a t ih => simp [optMapM, h a, ih]

theorem decodeTokens_encodeTokens (tokens : List (Str × Int)) :
    decodeTokens (tokens.map (fun p => (p.1, Json.num p.2))) = some tokens := by
  refine optMapM_roundtrip _ _ (fun p => ?_) tokens
  obtain ⟨k, v⟩ := p
  rfl

theorem decodeOptInt_encodeOptInt (d : Option Int) :
    decodeOptInt (encodeOptInt d) = some d := by
  cases d <;> rfl

set_option maxHeartbeats 1000000 in
theorem decodeTurn_encodeTurn (t : Turn) : decodeTurn (encodeTurn t) = some t := by
  obtain ⟨i, ts, r, c, m, tok, d, md⟩ := t
  simp [encodeTurn, decodeTurn, asObj, getField, strOf, asStr, asNum, encodeTokens,
    decodeTokens_encodeTokens, decodeOptInt_encodeOptInt, decodeRole_encodeRole,
    Option.bind_eq_bind, Option.some_bind]

theorem decodeSession_encodeSession (s : Session) :
    decodeSession (encodeSession s) = some s := by
  obtain ⟨i, n, ca, ua, m, p, tt, turns⟩ := s
  have hturns : optMapM decodeTurn (turns.map encodeTurn) = some turns :=
    optMapM_roundtrip encodeTurn decodeTurn decodeTurn_encodeTurn turns
  simp [encodeSession, decodeSession, asObj, getField, strOf, asStr, asNum, asArr,
    hturns, Option.bind_eq_bind, Option.some_bind]

/-! ## SessionManager (`nexus/session/manager.py`)

The sessions directory is modelled as an association list from file name
to JSON file content.  `save_session`'s temp-file-plus-atomic-rename
protocol is modelled by its final effect, the replacement of the
destination file's content (atomicity itself is not one of the claims
verified here); `datetime.now()` is passed in as the `now` argument. -/

abbrev SessionStore := List (Str × Json)

/-- `SessionManager._get_session_path`: `{name}.json` in the sessions dir. -/
def sessionFileName (name : Str) : Str := name ++ strOf ".json"

/-- `SessionManager.save_session`: sets `updated_at` to now, serializes,
and (atomically) replaces `{session.name}.json`. -/
def saveSession (st : SessionStore) (now : Int) (s : Session) : SessionStore :=
  let s' := { s with updated_at := now }
  assocInsert st (sessionFileName s'.name) (encodeSession s')

/-- `SessionManager.load_session`: sanitize the name, return `none` for a
missing file, parse the JSON otherwise (parse failures become `none`). -/
def loadSession (st : SessionStore) (name : Str) : Option Session :=
  let sanitized := sessionSanitize name
  match assocLookup st (sessionFileName sanitized) with
  | none => none
  | some j => decodeSession j

/-- `Session(...)` as built by `SessionManager.create_session`: sanitized
name, fresh id and timestamps, zero tokens, no turns. -/
def mkSession (id : Str) (now : Int) (name model provider : Str) : Session :=
  ⟨id, sessionSanitize name, now, now, model, provider, 0, []⟩

/-- `SessionManager.create_session`: build the session and save it. -/
def createSession (st : SessionStore) (id : Str) (now : Int)
    (name model provider : Str) : SessionStore × Session :=
  let s := mkSession id now name model provider
  (saveSession st now s, s)

/-- `turn.tokens.get("total", 0)`. -/
def tokensTotal (tokens : List (Str × Int)) : Int :=
  (assocLookup tokens (strOf "total")).getD 0

/-- `SessionManager.add_turn` (in-memory effect; the optional `save=True`
write does not change the in-memory session further). -/
def addTurn (s : Session) (t : Turn) : Session :=
  { s with turns := s.turns ++ [t],
           total_tokens := s.total_tokens + tokensTotal t.tokens }

/-- The spec's token-accounting invariant. -/
def tokenInvariant (s : Session) : Prop :=
  s.total_tokens = (s.turns.map (fun t => tokensTotal t.tokens)).sum

/-- C1 - Save/load round-trip: for a session whose name is a fixed point
of the session-name sanitizer, saving and then loading by that name
returns a session equal in id, name, created_at, model, provider,
total_tokens and turns, with `updated_at` at least the pre-save value
(`now`, the save time, is at or after the session's previous
`updated_at`). -/
theorem save_load_roundtrip (st : SessionStore) (s : Session) (now : Int)
    (hname : sessionSanitize s.name = s.name) (hupd : s.updated_at ≤ now) :
    ∃ s', loadSession (saveSession st now s) s.name = some s' ∧
      s'.id = s.id ∧ s'.name = s.name ∧ s'.created_at = s.created_at ∧
      s'.model = s.model ∧ s'.provider = s.provider ∧
      s'.total_tokens = s.total_tokens ∧ s'.turns = s.turns ∧
      s.updated_at ≤ s'.updated_at := by
  refine ⟨{ s with updated_at := now }, ?_, rfl, rfl, rfl, rfl, rfl, rfl, rfl, hupd⟩
  rw [loadSession, saveSession]
  simp only [hname]
  rw [assocLookup_insert_self]
  exact decodeSession_encodeSession _

/-- Witness for `save_load_roundtrip` at a concrete store and session. -/
theorem save_load_roundtrip_witness :
    sessionSanitize (strOf "demo") = strOf "demo" ∧
    (0 : Int) ≤ 5 ∧
    ∃ s', loadSession (saveSession [] 5 ⟨strOf "i", strOf "demo", 0, 0,
        strOf "gpt-4", strOf "openai", 0, []⟩) (strOf "demo") = some s' ∧
      s'.id = strOf "i" ∧ s'.name = strOf "demo" ∧ s'.created_at = 0 ∧
      s'.model = strOf "gpt-4" ∧ s'.provider = strOf "openai" ∧
      s'.total_tokens = 0 ∧ s'.turns = [] ∧ (0 : Int) ≤ s'.updated_at :=
  ⟨by decide, by decide,
    save_load_roundtrip [] ⟨strOf "i", strOf "demo", 0, 0, strOf "gpt-4",
      strOf "openai", 0, []⟩ 5 (by decide) (by decide)⟩

/-- C4 - Token accounting: `add_turn` preserves the invariant
`total_tokens == sum(turn.tokens["total"])`, and after any sequence of
`add_turn` calls on a freshly created session the total is the sum of the
added turns' `total` entries (a missing `"total"` key contributes 0). -/
theorem addTurn_token_accounting :
    (∀ (s : Session) (t : Turn), tokenInvariant s → tokenInvariant (addTurn s t)) ∧
    (∀ (id : Str) (now : Int) (name model provider : Str) (ts : List Turn),
      (ts.foldl addTurn (mkSession id now name model provider)).total_tokens
        = (ts.map (fun t => tokensTotal t.tokens)).sum) := by
  constructor
  · intro s t h
    rw [tokenInvariant, addTurn] at *
    simp only [List.map_append, List.sum_append, List.map_cons, List.map_nil,
      List.sum_cons, List.sum_nil, add_zero]
    rw [h]
  · intro id now name model provider ts
    have general : ∀ (s : Session), tokenInvariant s →
        (ts.foldl addTurn s).total_tokens
          = s.total_tokens + (ts.map (fun t => tokensTotal t.tokens)).sum := by
      induction ts with
      | nil => intro s _; simp
      | cons t rest ih =>
        intro s hs
        have hs' : tokenInvariant (addTurn s t) := by
          rw [tokenInvariant, addTurn] at *
          simp only [List.map_append, List.sum_append, List.map_cons, List.map_nil,
            List.sum_cons, List.sum_nil, add_zero]
          rw [hs]
        rw [List.foldl_cons, ih (addTurn s t) hs']
        simp [addTurn, add_assoc]
    have hfresh : tokenInvariant (mkSession id now name model provider) := by
      simp [tokenInvariant, mkSession]
    rw [general (mkSession id now name model provider) hfresh, mkSession]
    simp

/-- Witness for `addTurn_token_accounting` (discharging the invariant
hypothesis at a concrete session and turn). -/
theorem addTurn_token_accounting_witness :
    tokenInvariant (mkSession (strOf "i") 0 (strOf "demo") (strOf "m") (strOf "p")) ∧
    tokenInvariant (addTurn (mkSession (strOf "i") 0 (strOf "demo") (strOf "m") (strOf "p"))
      ⟨strOf "t1", 0, .user, strOf "Hi", strOf "m", [(strOf "total", 5)], none, []⟩) ∧
    ([⟨strOf "t1", 0, .user, strOf "Hi", strOf "m", [(strOf "total", 5)], none, []⟩,
      ⟨strOf "t2", 1, .assistant, strOf "Yo", strOf "m", [(strOf "total", 7)], none, []⟩]
        |>.foldl addTurn (mkSession (strOf "i") 0 (strOf "demo") (strOf "m") (strOf "p"))
        |>.total_tokens) = 12 := by
  refine ⟨by simp [tokenInvariant, mkSession], ?_, ?_⟩
  · exact addTurn_token_accounting.1 _ _ (by simp [tokenInvariant, mkSession])
  · rw [addTurn_token_accounting.2 (strOf "i") 0 (strOf "demo") (strOf "m") (strOf "p")]
    decide

/-! ## PromptManager._sanitize_name (`nexus/prompts/manager.py`)

The prompt-name sanitizer: strip, percent-decode (≤ 2 passes of
`urllib.parse.unquote`), null-byte removal, Unicode-lookalike separator
normalization, leading `./\` strip, `..` collapse, character whitelist
substitution, truncation to 255, plus a defence-in-depth containment check
of `storage/{name}.md` against the storage directory.

`unquote` is modelled byte-wise: each valid `%XX` pair becomes the
character with code point `XX` (multi-byte UTF-8 recombination is not
modelled; every theorem below holds for arbitrary decoder output because
the later pipeline stages discharge the proof obligations for any
string). -/

/-- Hex digit value (Python `string.hexdigits`). -/
def hexVal (c : Char) : Option Nat :=
  if '0' ≤ c ∧ c ≤ '9' then some (c.toNat - '0'.toNat)
  else if 'a' ≤ c ∧ c ≤ 'f' then some (c.toNat - 'a'.toNat + 10)
  else if 'A' ≤ c ∧ c ≤ 'F' then some (c.toNat - 'A'.toNat + 10)
  else none

/-- One `urllib.parse.unquote` pass: decode each valid `%XX` escape,
leave invalid escapes untouched. -/
def percentDecode : Str → Str
  | '%' :: a :: b :: rest =>
    match hexVal a, hexVal b with
    | some x, some y => Char.ofNat (16 * x + y) :: percentDecode rest
    | _, _ => '%' :: percentDecode (a :: b :: rest)
  | c :: rest => c :: percentDecode rest
  | [] => []

/-- The source's `for _ in range(2)` decode loop with early break when a
pass is a no-op. -/
def decodeLoop (name : Str) : Str :=
  let d := percentDecode name
  if d = name then name else percentDecode d

/-- Two adjacent dots somewhere in the string (`".." in name`). -/
def hasAdjDots : Str → Bool
  | c1 :: c2 :: rest => (c1 = '.' ∧ c2 = '.') || hasAdjDots (c2 :: rest)
  | _ => false

/-- One pass of `name.replace("..", "__")` (left-to-right, non-overlapping). -/
def replaceDotDot : Str → Str
  | [] => []
  | [c] => [c]
  | c1 :: c2 :: rest =>
    if c1 = '.' ∧ c2 = '.' then '_' :: '_' :: replaceDotDot rest
    else c1 :: replaceDotDot (c2 :: rest)

/-- The `while ".." in name:` loop, with fuel bounding the iteration count
(one pass already removes every occurrence, see `hasAdjDots_replaceDotDot`). -/
def removeDotDotLoop : Nat → Str → Str
  | 0, l => l
  | n + 1, l => if hasAdjDots l then removeDotDotLoop n (replaceDotDot l) else l

def removeDotDot (l : Str) : Str := removeDotDotLoop (l.length + 1) l

/-- The whitelist `[a-zA-Z0-9._-]` of `re.sub`. -/
def isAllowedPrompt (c : Char) : Bool :=
  ('a' ≤ c && c ≤ 'z') || ('A' ≤ c && c ≤ 'Z') || ('0' ≤ c && c ≤ '9') ||
    c = '.' || c = '_' || c = '-'

/-- `re.sub(r"[^a-zA-Z0-9._-]", "_", name)` acts on each character. -/
def promptCharFix (c : Char) : Char := if isAllowedPrompt c then c else '_'

/-- Characters stripped from the left by `name.lstrip(".\\/")`. -/
def isDotOrSep (c : Char) : Bool := c = '.' || c = '\\' || c = '/'

def splitSlashGo (cur : Str) : Str → List Str
  | [] => [cur.reverse]
  | c :: rest =>
    if c = '/' then cur.reverse :: splitSlashGo [] rest
    else splitSlashGo (c :: cur) rest

/-- Split a POSIX path string into components at `/`, dropping empty
segments (models `pathlib` joining a possibly slash-containing name). -/
def splitSlash (l : Str) : List Str := (splitSlashGo [] l).filter (fun c => !c.isEmpty)

def resolveGo (stack : List Str) : List Str → List Str
  | [] => stack.reverse
  | c :: rest =>
    if c = strOf "." then resolveGo stack rest
    else if c = strOf ".." then resolveGo stack.tail rest
    else resolveGo (c :: stack) rest

/-- `Path.resolve()` on an already-absolute component list: drop `.`
segments, let `..` pop the previous segment (popping past the root is a
no-op, as for an absolute path). -/
def resolveComponents (l : List Str) : List Str := resolveGo [] l

/-- `(storage_path / f"{name}.md").resolve()` with `storage_path` already
resolved at construction time. -/
def promptTestPath (storage : List Str) (fname : Str) : List Str :=
  resolveComponents (storage ++ splitSlash fname)

/-- `path.relative_to(base)` succeeds iff `base` is a prefix of `path`
(both canonical). -/
def isRelativeTo (p base : List Str) : Bool := decide (base <+: p)

instance {e a : Type} [DecidableEq e] [DecidableEq a] : DecidableEq (Except e a) := fun x y =>
  match x, y with
  | .ok v, .ok w =>
    if h : v = w then isTrue (by rw [h]) else isFalse (fun hc => h (Except.ok.inj hc))
  | .error v, .error w =>
    if h : v = w then isTrue (by rw [h]) else isFalse (fun hc => h (Except.error.inj hc))
  | .ok _, .error _ => isFalse (fun hc => Except.noConfusion hc)
  | .error _, .ok _ => isFalse (fun hc => Except.noConfusion hc)

structure PromptSecurityError where
  msg : Str
  deriving DecidableEq, Repr

/-- `PromptManager._sanitize_name`, translated stage by stage from the
source: empty checks, `strip`, the two-pass `unquote` loop, null-byte
removal, Unicode-lookalike separator normalization, `lstrip(".\\/")` +
`strip`, the `..`-collapse loop, whitelist substitution, the
defence-in-depth containment check, and truncation to 255. -/
def promptSanitize (storage : List Str) (name : Str) : Except PromptSecurityError Str :=
  if name.isEmpty then
    .error ⟨strOf "Prompt name must be a non-empty string"⟩
  else
    let name1 := pyStrip name
    if name1.isEmpty then .error ⟨strOf "Prompt name cannot be empty"⟩
    else
      let name2 := decodeLoop name1
      let name3 := name2.filter (fun c => c != '\x00')
      let name4 := replaceChar '＼' '\\' (replaceChar '／' '/' (replaceChar '∕' '/' name3))
      let name5 := pyStrip (lstripBy isDotOrSep name4)
      let name6 := removeDotDot name5
      let sanitized := name6.map promptCharFix
      if sanitized.isEmpty then
        .error ⟨strOf "Prompt name must contain at least one alphanumeric character, hyphen, or underscore"⟩
      else if isRelativeTo (promptTestPath storage (sanitized ++ strOf ".md")) storage then
        .ok (sanitized.take 255)
      else
        .error ⟨strOf "Invalid prompt name: path traversal detected"⟩

theorem allowed_map_promptCharFix (l : Str) :
    ∀ c ∈ l.map promptCharFix, isAllowedPrompt c = true := by
  intro c hc
  obtain ⟨d, _, hd⟩ := List.mem_map.mp hc
  rw [← hd, promptCharFix]
  by_cases h : isAllowedPrompt d
  · rw [if_pos h]; exact h
  · rw [if_neg h]; decide

theorem promptCharFix_eq_dot (c : Char) (h : promptCharFix c = '.') : c = '.' := by
  rw [promptCharFix] at h
  by_cases ha : isAllowedPrompt c
  · rwa [if_pos ha] at h
  · rw [if_neg ha] at h
    exact absurd h (by decide)

theorem head?_replaceDotDot (c : Char) (rest : Str) :
    ∃ c', (replaceDotDot (c :: rest)).head? = some c' ∧ (c' = c ∨ c' = '_') := by
  cases rest with
  | nil => exact ⟨c, rfl, Or.inl rfl⟩
  | cons c2 r =>
    by_cases h : c = '.' ∧ c2 = '.'
    · exact ⟨'_', by rw [replaceDotDot, if_pos h]; rfl, Or.inr rfl⟩
    · exact ⟨c, by rw [replaceDotDot, if_neg h]; rfl, Or.inl rfl⟩

theorem hasAdjDots_replaceDotDot (l : Str) : hasAdjDots (replaceDotDot l) = false := by
  induction l using replaceDotDot.induct with
  | case1 => rfl
  | case2 c => rfl
  | case3 c1 c2 rest h ih =>
    rw [replaceDotDot, if_pos h]
    simp only [hasAdjDots]
    have h2 : hasAdjDots ('_' :: replaceDotDot rest) = false := by
      cases hrep : replaceDotDot rest with
      | nil => rfl
      | cons a s =>
        rw [hasAdjDots]
        rw [hrep] at ih
        simp only [ih, Bool.or_false]
        simp

    simp only [hasAdjDots] at h2 ⊢
    simpa using h2
  | case4 c1 c2 rest h ih =>
    rw [replaceDotDot, if_neg h]
    obtain ⟨c', hc', hval⟩ := head?_replaceDotDot c2 rest
    cases hrep : replaceDotDot (c2 :: rest) with
    | nil => rfl
    | cons a s =>
      rw [hrep] at hc' ih
      simp at hc'
      rw [hasAdjDots]
      simp only [ih, Bool.or_false]
      by_cases hc1 : c1 = '.'
      · have hc2 : ¬ c2 = '.' := fun e => h ⟨hc1, e⟩
        have ha : ¬ a = '.' := by
          rcases hval with hv | hv
          · rw [hc', hv]; exact hc2
          · rw [hc', hv]; decide
        simp [hc1, ha]
      · simp [hc1]

theorem removeDotDotLoop_eq_self (n : Nat) (l : Str) (h : hasAdjDots l = false) :
    removeDotDotLoop n l = l := by
  cases n with
  | zero => rfl
  | succ m => rw [removeDotDotLoop, if_neg (by simp [h])]

theorem removeDotDot_eq_self (l : Str) (h : hasAdjDots l = false) :
    removeDotDot l = l :=
  removeDotDotLoop_eq_self _ l h

theorem hasAdjDots_removeDotDot (l : Str) : hasAdjDots (removeDotDot l) = false := by
  rw [removeDotDot]
  by_cases h : hasAdjDots l
  · rw [removeDotDotLoop, if_pos h,
      removeDotDotLoop_eq_self _ _ (hasAdjDots_replaceDotDot l)]
    exact hasAdjDots_replaceDotDot l
  · rw [removeDotDotLoop, if_neg h]
    simpa using h

theorem hasAdjDots_map_promptCharFix (l : Str) (h : hasAdjDots l = false) :
    hasAdjDots (l.map promptCharFix) = false := by
  induction l with
  | nil => rfl
  | cons c rest ih =>
    cases rest with
    | nil => rfl
    | cons c2 r =>
      rw [hasAdjDots] at h
      simp only [Bool.or_eq_false_iff] at h
      rw [List.map_cons, List.map_cons, hasAdjDots]
      have htl := ih h.2
      rw [List.map_cons] at htl
      simp only [htl, Bool.or_false]
      simp only [decide_eq_false_iff_not] at h ⊢
      intro hpair
      exact h.1 ⟨promptCharFix_eq_dot c hpair.1, promptCharFix_eq_dot c2 hpair.2⟩

theorem hasAdjDots_take (l : Str) (n : Nat) (h : hasAdjDots l = false) :
    hasAdjDots (l.take n) = false := by
  induction l generalizing n with
  | nil =>
    rw [List.take_nil]
    rfl
  | cons c rest ih =>
    cases n with
    | zero => rfl
    | succ m =>
      rw [List.take_succ_cons]
      cases rest with
      | nil => simp; rfl
      | cons c2 r =>
        rw [hasAdjDots] at h
        simp only [Bool.or_eq_false_iff] at h
        cases m with
        | zero => rfl
        | succ k =>
          rw [List.take_succ_cons, hasAdjDots]
          have htk := ih (k + 1) h.2
          rw [List.take_succ_cons] at htk
          simp only [htk, Bool.or_false]
          simpa using h.1

theorem splitSlashGo_no_slash (cur l : Str) (h : ∀ c ∈ l, c ≠ '/') :
    splitSlashGo cur l = [cur.reverse ++ l] := by
  induction l generalizing cur with
  | nil => simp [splitSlashGo]
  | cons c rest ih =>
    rw [splitSlashGo, if_neg (h c (List.mem_cons_self c rest))]
    rw [ih (c :: cur) (fun d hd => h d (List.mem_cons_of_mem c hd))]
    simp

theorem splitSlash_single (f : Str) (hne : f ≠ []) (h : ∀ c ∈ f, c ≠ '/') :
    splitSlash f = [f] := by
  rw [splitSlash, splitSlashGo_no_slash [] f h]
  simp [hne]

theorem resolveGo_clean (stack : List Str) (l : List Str)
    (h : ∀ comp ∈ l, comp ≠ strOf "." ∧ comp ≠ strOf "..") :
    resolveGo stack l = stack.reverse ++ l := by
  induction l generalizing stack with
  | nil => simp [resolveGo]
  | cons c rest ih =>
    have hc := h c (List.mem_cons_self c rest)
    rw [resolveGo, if_neg hc.1, if_neg hc.2,
      ih (c :: stack) (fun d hd => h d (List.mem_cons_of_mem c hd))]
    simp

theorem promptOut_props (storage : List Str) (m : Str)
    (hstore : ∀ comp ∈ storage, comp ≠ strOf "." ∧ comp ≠ strOf "..")
    (hsan : List.map promptCharFix (removeDotDot m) ≠ []) :
    hasAdjDots ((List.map promptCharFix (removeDotDot m)).take 255) = false ∧
    '/' ∉ (List.map promptCharFix (removeDotDot m)).take 255 ∧
    '\\' ∉ (List.map promptCharFix (removeDotDot m)).take 255 ∧
    ':' ∉ (List.map promptCharFix (removeDotDot m)).take 255 ∧
    '\x00' ∉ (List.map promptCharFix (removeDotDot m)).take 255 ∧
    (List.map promptCharFix (removeDotDot m)).take 255 ≠ [] ∧
    promptTestPath storage ((List.map promptCharFix (removeDotDot m)).take 255 ++ strOf ".md")
      = storage ++ [(List.map promptCharFix (removeDotDot m)).take 255 ++ strOf ".md"] ∧
    isRelativeTo (promptTestPath storage
        ((List.map promptCharFix (removeDotDot m)).take 255 ++ strOf ".md")) storage = true := by
  set out := (List.map promptCharFix (removeDotDot m)).take 255 with hout
  have hsub : ∀ c ∈ out, isAllowedPrompt c = true := by
    intro c hc
    rw [hout] at hc
    exact allowed_map_promptCharFix _ c (List.take_subset _ _ hc)
  have hadj : hasAdjDots out = false := by
    rw [hout]
    exact hasAdjDots_take _ _
      (hasAdjDots_map_promptCharFix _ (hasAdjDots_removeDotDot m))
  have hne : out ≠ [] := by
    rw [hout]
    intro hcontra
    rcases (List.take_eq_nil_iff).mp hcontra with h255 | hmap
    · exact absurd h255 (by decide)
    · exact hsan hmap
  have hnoslash : '/' ∉ out := fun hc => absurd (hsub '/' hc) (by decide)
  have hnobs : '\\' ∉ out := fun hc => absurd (hsub '\\' hc) (by decide)
  have hnocolon : ':' ∉ out := fun hc => absurd (hsub ':' hc) (by decide)
  have hnonull : '\x00' ∉ out := fun hc => absurd (hsub '\x00' hc) (by decide)
  have hfname_ne : out ++ strOf ".md" ≠ [] := by
    intro e
    exact hne (List.append_eq_nil.mp e).1
  have hfname_noslash : ∀ c ∈ out ++ strOf ".md", c ≠ '/' := by
    intro c hc e
    rcases List.mem_append.mp hc with hm' | hm'
    · rw [e] at hm'; exact hnoslash hm'
    · rw [e] at hm'; exact absurd hm' (by decide)
  have hsplit : splitSlash (out ++ strOf ".md") = [out ++ strOf ".md"] :=
    splitSlash_single _ hfname_ne hfname_noslash
  have hfname_clean : (out ++ strOf ".md") ≠ strOf "." ∧
      (out ++ strOf ".md") ≠ strOf ".." := by
    constructor
    · intro e
      have hlen := congrArg List.length e
      simp [strOf] at hlen
    · intro e
      have hlen := congrArg List.length e
      simp [strOf] at hlen
  have hresolve : promptTestPath storage (out ++ strOf ".md")
      = storage ++ [out ++ strOf ".md"] := by
    rw [promptTestPath, hsplit, resolveComponents, resolveGo_clean]
    · simp
    · intro comp hcomp
      rcases List.mem_append.mp hcomp with hm' | hm'
      · exact hstore comp hm'
      · simp at hm'
        rw [hm']
        exact hfname_clean
  refine ⟨hadj, hnoslash, hnobs, hnocolon, hnonull, hne, hresolve, ?_⟩
  rw [hresolve, isRelativeTo]
  exact decide_eq_true (List.prefix_append storage _)

/-- Every successful run of the sanitizer returns the 255-truncation of a
whitelist-substituted, dot-dot-collapsed string. -/
theorem promptSanitize_ok_shape (storage : List Str) (name out : Str)
    (hok : promptSanitize storage name = .ok out) :
    ∃ m, out = (List.map promptCharFix (removeDotDot m)).take 255 ∧
      List.map promptCharFix (removeDotDot m) ≠ [] ∧
      isRelativeTo (promptTestPath storage
        (List.map promptCharFix (removeDotDot m) ++ strOf ".md")) storage = true := by
  simp only [promptSanitize] at hok
  split at hok
  · exact absurd hok (by simp)
  · split at hok
    · exact absurd hok (by simp)
    · split at hok
      · exact absurd hok (by simp)
      · split at hok
        · rename_i hsan hpath
          have hout := Except.ok.inj hok
          refine ⟨_, hout.symm, ?_, hpath⟩
          intro e
          rw [e] at hsan
          exact hsan rfl
        · exact absurd hok (by simp)

/-- C3 - Traversal immunity of prompt-name sanitization: whenever
`_sanitize_name` succeeds (for any input whatsoever, in particular inputs
containing `..`, absolute-path markers, drive letters, separators, null
bytes, or percent-encoded variants), the returned name contains no `..`
(two adjacent dots), none of `/ \ : NUL`, and `storage/{name}.md`
resolves to a strict descendant of the (canonical) storage directory. -/
theorem prompt_sanitize_traversal_immunity (storage : List Str) (name out : Str)
    (hstore : ∀ comp ∈ storage, comp ≠ strOf "." ∧ comp ≠ strOf "..")
    (hok : promptSanitize storage name = .ok out) :
    hasAdjDots out = false ∧
    '/' ∉ out ∧ '\\' ∉ out ∧ ':' ∉ out ∧ '\x00' ∉ out ∧ out ≠ [] ∧
    promptTestPath storage (out ++ strOf ".md") = storage ++ [out ++ strOf ".md"] ∧
    isRelativeTo (promptTestPath storage (out ++ strOf ".md")) storage = true := by
  obtain ⟨m, hout, hne, _⟩ := promptSanitize_ok_shape storage name out hok
  subst hout
  exact promptOut_props storage m hstore hne

/-- Witness for `prompt_sanitize_traversal_immunity` at the concrete
traversal attempt `"..%2f..%2fetc%2fpasswd"` against storage
`/home/prompts`. -/
theorem prompt_sanitize_traversal_immunity_witness :
    (∀ comp ∈ [strOf "home", strOf "prompts"],
        comp ≠ strOf "." ∧ comp ≠ strOf "..") ∧
    promptSanitize [strOf "home", strOf "prompts"]
        (strOf "..%2f..%2fetc%2fpasswd") = .ok (strOf "etc_passwd") ∧
    (hasAdjDots (strOf "etc_passwd") = false ∧
      '/' ∉ strOf "etc_passwd" ∧ '\\' ∉ strOf "etc_passwd" ∧
      ':' ∉ strOf "etc_passwd" ∧ '\x00' ∉ strOf "etc_passwd" ∧
      strOf "etc_passwd" ≠ [] ∧
      promptTestPath [strOf "home", strOf "prompts"]
          (strOf "etc_passwd" ++ strOf ".md")
        = [strOf "home", strOf "prompts"] ++ [strOf "etc_passwd" ++ strOf ".md"] ∧
      isRelativeTo (promptTestPath [strOf "home", strOf "prompts"]
          (strOf "etc_passwd" ++ strOf ".md")) [strOf "home", strOf "prompts"] = true) :=
  ⟨by decide, by decide,
    prompt_sanitize_traversal_immunity [strOf "home", strOf "prompts"]
      (strOf "..%2f..%2fetc%2fpasswd") (strOf "etc_passwd") (by decide) (by decide)⟩

theorem percentDecode_no_percent (l : Str) (h : ∀ c ∈ l, c ≠ '%') :
    percentDecode l = l := by
  induction l using percentDecode.induct with
  | case1 a b rest hx hy =>
    exact absurd rfl (h '%' (List.mem_cons_self _ _))
  | case2 a b rest hxy =>
    exact absurd rfl (h '%' (List.mem_cons_self _ _))
  | case3 c rest hne ih =>
    rw [percentDecode]
    · rw [ih (fun d hd => h d (List.mem_cons_of_mem c hd))]
    · exact hne
  | case4 => rfl

theorem decodeLoop_eq_self (l : Str) (h : percentDecode l = l) :
    decodeLoop l = l := by
  rw [decodeLoop]
  simp [h]

theorem allowed_not_whitespace (c : Char) (h : isAllowedPrompt c = true) :
    isPyWhitespace c = false := by
  by_contra hw
  simp only [Bool.not_eq_false] at hw
  rw [isPyWhitespace] at hw
  simp only [Bool.or_eq_true, decide_eq_true_eq] at hw
  rcases hw with ((((e | e) | e) | e) | e) | e <;> subst e <;> exact absurd h (by decide)

theorem head?_mem_list (l : Str) (c : Char) (h : l.head? = some c) : c ∈ l := by
  cases l with
  | nil => simp at h
  | cons a t =>
    simp at h
    rw [h]
    exact List.mem_cons_self c t

theorem map_promptCharFix_allowed (l : Str) (h : ∀ c ∈ l, isAllowedPrompt c = true) :
    l.map promptCharFix = l := by
  have : ∀ c ∈ l, promptCharFix c = c := by
    intro c hc
    rw [promptCharFix, if_pos (h c hc)]
  calc l.map promptCharFix = l.map id := List.map_congr_left this
    _ = l := List.map_id l

/-- A successful sanitizer output accepted unchanged by the second pass:
every stage of the pipeline fixes a nonempty all-whitelist string whose
first character is not a dot. -/
theorem promptSanitize_fixes_output (storage : List Str) (out : Str)
    (hsub : ∀ c ∈ out, isAllowedPrompt c = true)
    (hadj : hasAdjDots out = false)
    (hne : out ≠ [])
    (hhead : out.head? ≠ some '.')
    (hlen : out.length ≤ 255)
    (hpath : isRelativeTo (promptTestPath storage (out ++ strOf ".md")) storage = true) :
    promptSanitize storage out = .ok out := by
  have hnotempty : out.isEmpty = false := by
    cases out with
    | nil => exact absurd rfl hne
    | cons a t => rfl
  have hstrip : pyStrip out = out :=
    stripBy_eq_self _ out (fun c hc => allowed_not_whitespace c (hsub c hc))
  have hdec : decodeLoop out = out := by
    apply decodeLoop_eq_self
    apply percentDecode_no_percent
    intro c hc e
    subst e
    exact absurd (hsub '%' hc) (by decide)
  have hfilter : out.filter (fun c => c != '\x00') = out := by
    apply List.filter_eq_self.mpr
    intro c hc
    have := hsub c hc
    simp only [bne_iff_ne, ne_eq, decide_eq_true_eq]
    intro e
    subst e
    exact absurd this (by decide)
  have hrc : ∀ (a b : Char), isAllowedPrompt a = false → replaceChar a b out = out := by
    intro a b ha
    have : ∀ c ∈ out, (if c = a then b else c) = c := by
      intro c hc
      rw [if_neg]
      intro e
      subst e
      rw [hsub c hc] at ha
      exact Bool.true_eq_false.mp ha
    calc out.map (fun c => if c = a then b else c) = out.map id := List.map_congr_left this
      _ = out := List.map_id out
  have hlstrip : lstripBy isDotOrSep out = out := by
    apply lstripBy_of_head
    intro c hc
    have hcm := head?_mem_list out c hc
    have hall := hsub c hcm
    have hcd : c ≠ '.' := by
      intro e
      rw [e] at hc
      exact hhead hc
    rw [isDotOrSep]
    have hbs : c ≠ '\\' := by
      intro e
      subst e
      exact absurd hall (by decide)
    have hsl : c ≠ '/' := by
      intro e
      subst e
      exact absurd hall (by decide)
    simp [hcd, hbs, hsl]
  have hrm : removeDotDot out = out := removeDotDot_eq_self out hadj
  have hmap : out.map promptCharFix = out := map_promptCharFix_allowed out hsub
  have htake : out.take 255 = out := List.take_of_length_le hlen
  simp only [promptSanitize]
  rw [if_neg (by simp [hnotempty]), hstrip, if_neg (by simp [hnotempty]), hdec, hfilter,
    hrc '∕' '/' (by decide), hrc '／' '/' (by decide), hrc '＼' '\\' (by decide),
    hlstrip, hstrip, hrm, hmap, if_neg (by simp [hnotempty]), if_pos hpath, htake]

/-- Counterexample to C7's prompt half: `"%20.x"` sanitizes to `".x"`
(the percent-decoded space shields the dot from the leading-dot strip and
is then removed by the final `strip()`), but sanitizing `".x"` gives
`"x"`. -/
theorem prompt_sanitize_not_idempotent :
    promptSanitize [strOf "prompts"] (strOf "%20.x") = .ok (strOf ".x") ∧
    promptSanitize [strOf "prompts"] (strOf ".x") = .ok (strOf "x") ∧
    strOf ".x" ≠ strOf "x" := ⟨by decide, by decide, by decide⟩

/-- C7 (amended) - Idempotent sanitization: the session-name sanitizer is
idempotent on every input; the prompt-name sanitizer re-accepts a
successful output unchanged provided that output does not begin with a
dot (a dot-leading output - e.g. from `"%20.x"`, whose decoded leading
space shields the dot from the lstrip stage - loses its leading dot on
the second pass). -/
theorem sanitize_idempotence_amended (storage : List Str)
    (hstore : ∀ comp ∈ storage, comp ≠ strOf "." ∧ comp ≠ strOf "..") :
    (∀ x : Str, sessionSanitize (sessionSanitize x) = sessionSanitize x) ∧
    (∀ name out : Str, promptSanitize storage name = .ok out →
      out.head? ≠ some '.' → promptSanitize storage out = .ok out) := by
  refine ⟨sessionSanitize_idem, ?_⟩
  intro name out hok hhead
  obtain ⟨m, hout, hne, _⟩ := promptSanitize_ok_shape storage name out hok
  subst hout
  obtain ⟨hadj, _, _, _, _, hne', _, hpath'⟩ := promptOut_props storage m hstore hne
  apply promptSanitize_fixes_output storage _ _ hadj hne' hhead _ hpath'
  · intro c hc
    exact allowed_map_promptCharFix _ c (List.take_subset _ _ hc)
  · rw [List.length_take]
    exact min_le_left _ _

/-- Witness for `sanitize_idempotence_amended`: both halves applied at
concrete inputs. -/
theorem sanitize_idempotence_amended_witness :
    sessionSanitize (sessionSanitize (strOf "a<b")) = sessionSanitize (strOf "a<b") ∧
    promptSanitize [strOf "prompts"] (strOf "My Prompt") = .ok (strOf "My_Prompt") ∧
    promptSanitize [strOf "prompts"] (strOf "My_Prompt") = .ok (strOf "My_Prompt") :=
  ⟨(sanitize_idempotence_amended [strOf "prompts"] (by decide)).1 (strOf "a<b"),
   by decide,
   (sanitize_idempotence_amended [strOf "prompts"] (by decide)).2
     (strOf "My Prompt") (strOf "My_Prompt") (by decide) (by decide)⟩

theorem stripBy_all (p : Char → Bool) (l : Str) (h : ∀ c ∈ l, p c = true) :
    stripBy p l = [] := by
  have hl : lstripBy p l = [] := List.dropWhile_eq_nil_iff.mpr h
  rw [stripBy, hl]
  rfl

theorem ws_sessionFix (c : Char) (h : isPyWhitespace c = true) : sessionFix c = c := by
  rw [isPyWhitespace] at h
  simp only [Bool.or_eq_true, decide_eq_true_eq] at h
  rcases h with ((((e | e) | e) | e) | e) | e <;> subst e <;> decide

/-- C9 - Session-name sanitization is total and never rejects: whitespace-only
input maps to the empty name (returned, not raised), reserved-character-only
input maps to underscores, `create_session` always succeeds with the
sanitized name, while the prompt sanitizer raises `PromptSecurityError` on
every whitespace-only (in particular empty) input. -/
theorem session_name_sanitization_total (storage : List Str) :
    (∀ x : Str, (∀ c ∈ x, isPyWhitespace c = true) → sessionSanitize x = []) ∧
    (∀ x : Str, (∀ c ∈ x, c ∈ sessionInvalidChars) →
      sessionSanitize x = x.map (fun _ => '_')) ∧
    (∀ (st : SessionStore) (id : Str) (now : Int) (name model provider : Str),
      (createSession st id now name model provider).2.name = sessionSanitize name) ∧
    (∀ x : Str, (∀ c ∈ x, isPyWhitespace c = true) →
      ∃ e, promptSanitize storage x = .error e) := by
  refine ⟨?_, ?_, ?_, ?_⟩
  · intro x h
    rw [sessionSanitize_eq_map]
    have hx : x.map sessionFix = x := by
      calc x.map sessionFix = x.map id :=
            List.map_congr_left (fun c hc => ws_sessionFix c (h c hc))
        _ = x := List.map_id x
    rw [hx]
    exact stripBy_all _ x h
  · intro x h
    rw [sessionSanitize_eq_map]
    have hx : x.map sessionFix = x.map (fun _ => '_') :=
      List.map_congr_left (fun c hc => by rw [sessionFix, if_pos (h c hc)])
    rw [hx, pyStrip]
    apply stripBy_eq_self
    intro c hc
    obtain ⟨d, _, hd⟩ := List.mem_map.mp hc
    rw [← hd]
    decide
  · intro st id now name model provider
    rfl
  · intro x h
    cases x with
    | nil => exact ⟨⟨strOf "Prompt name must be a non-empty string"⟩, rfl⟩
    | cons a t =>
      refine ⟨⟨strOf "Prompt name cannot be empty"⟩, ?_⟩
      have hstrip : pyStrip (a :: t) = [] := stripBy_all _ _ h
      simp only [promptSanitize]
      rw [if_neg (by simp), hstrip]
      rfl

/-- Witness for `session_name_sanitization_total`: whitespace-only and
reserved-only inputs at concrete values. -/
theorem session_name_sanitization_total_witness :
    sessionSanitize (strOf "  ") = [] ∧
    sessionSanitize (strOf "<>:") = (strOf "<>:").map (fun _ => '_') ∧
    (createSession [] (strOf "i") 0 (strOf "s") (strOf "m") (strOf "p")).2.name
      = sessionSanitize (strOf "s") ∧
    ∃ e, promptSanitize [strOf "prompts"] (strOf " \t ") = .error e :=
  ⟨(session_name_sanitization_total [strOf "prompts"]).1 (strOf "  ") (by decide),
   (session_name_sanitization_total [strOf "prompts"]).2.1 (strOf "<>:") (by decide),
   (session_name_sanitization_total [strOf "prompts"]).2.2.1 [] (strOf "i") 0
     (strOf "s") (strOf "m") (strOf "p"),
   (session_name_sanitization_total [strOf "prompts"]).2.2.2 (strOf " \t ") (by decide)⟩

/-! ## search_sessions (`nexus/session/manager.py`)

`search_sessions` iterates the directory's `*.json` entries, skips
`.temp-` stems, loads each session, reports a name match (full name as
matched text) or else the first content-matching turn (full content as
matched text), and finally sorts by `updated_at` descending.  Python's
stable `sort(reverse=True)` is modelled by an insertion sort with the same
descending comparison; the verified properties are order-insensitive. -/

/-- Python `str.lower()` (charwise, ASCII model). -/
def toLowerStr (s : Str) : Str := s.map Char.toLower

/-- Python `s.startswith(pre)`. -/
def strStartsWith (s pre : Str) : Bool := decide (pre <+: s)

/-- Python `s.endswith(suf)`. -/
def strEndsWith (s suf : Str) : Bool := decide (suf <:+ s)

def sensitiveDirs : List Str :=
  [strOf ".ssh", strOf ".aws", strOf ".kube", strOf ".gnupg", strOf ".docker"]

/-- `re.match(pattern, filename, re.IGNORECASE)` over `SENSITIVE_PATTERNS`:
each pattern is an anchored-prefix (or, for the `.*\X$` ones, a suffix)
test against the lowercased filename. -/
def matchesSensitivePattern (filename : Str) : Bool :=
  let f := toLowerStr filename
  strStartsWith f (strOf ".env") || strEndsWith f (strOf ".pem") ||
  strEndsWith f (strOf ".key") || strEndsWith f (strOf ".p12") ||
  strEndsWith f (strOf ".pfx") || strStartsWith f (strOf "id_rsa") ||
  strStartsWith f (strOf "id_dsa") || strStartsWith f (strOf "id_ecdsa") ||
  strStartsWith f (strOf "id_ed25519") || strStartsWith f (strOf ".aws/credentials") ||
  strStartsWith f (strOf "credentials.json") || strStartsWith f (strOf "secrets.yaml") ||
  strStartsWith f (strOf "secrets.yml") || strStartsWith f (strOf ".npmrc") ||
  strStartsWith f (strOf ".pypirc") || strStartsWith f (strOf ".netrc") ||
  strStartsWith f (strOf ".dockercfg") || strStartsWith f (strOf ".docker/config.json")

/-- `Path.name`: the final component (empty for the root path). -/
def pathName (p : List Str) : Str := p.getLast?.getD []

/-- `is_sensitive_path`: a sensitive directory among the components, or a
sensitive filename pattern. -/
def isSensitivePath (p : List Str) : Bool :=
  p.any (fun part => decide (part ∈ sensitiveDirs)) || matchesSensitivePattern (pathName p)

structure FileAccessError where
  msg : Str
  deriving DecidableEq, Repr

/-- The ambient filesystem/terminal state `validate_file_path` consults. -/
structure FileSystem where
  resolve : Str → Option (List Str)
  fileExists : List Str → Bool
  resolveDir : List Str → List Str
  isatty : Bool
  confirm : Bool

/-- Step 4 of `validate_file_path` (the sensitive-file gate). -/
def sensitiveGate (fs : FileSystem) (path : List Str)
    (allowSensitive interactive : Bool) : Except FileAccessError (List Str) :=
  if !allowSensitive && isSensitivePath path then
    if interactive && fs.isatty then
      if fs.confirm then .ok path
      else .error ⟨strOf "User declined to include sensitive file: " ++ pathName path⟩
    else
      .error ⟨strOf "Sensitive file access blocked: " ++ pathName path ++
        strOf "\nUse --allow-sensitive flag to override"⟩
  else .ok path

/-- `validate_file_path`: canonicalize, existence check, base-directory
containment, then the sensitive-file gate. -/
def validateFilePath (fs : FileSystem) (pathStr : Str) (baseDir : Option (List Str))
    (allowSensitive interactive : Bool) : Except FileAccessError (List Str) :=
  match fs.resolve pathStr with
  | none => .error ⟨strOf "Invalid path: " ++ pathStr⟩
  | some path =>
    if fs.fileExists path = false then .error ⟨strOf "Path not found: " ++ pathStr⟩
    else
      match baseDir with
      | none => sensitiveGate fs path allowSensitive interactive
      | some base =>
        if isRelativeTo path (fs.resolveDir base) = false then
          .error ⟨strOf "Access denied: '" ++ pathStr ++ strOf "' is outside working directory"⟩
        else sensitiveGate fs path allowSensitive interactive

theorem cons_ne_cons_of_head (c d : Char) (a b : Str) (h : c ≠ d) : c :: a ≠ d :: b := by
  intro e
  exact h (List.head_eq_of_cons_eq e)

/-- C6 - Sensitive-file gate: for an existing, canonicalizable path inside
the base directory whose filename matches a sensitive pattern,
`validate_file_path` with `allow_sensitive=False, interactive=False` fails
with a `FileAccessError` whose message names the file and mentions the
`--allow-sensitive` override, and which differs from every not-found
message; the same call with `allow_sensitive=True` returns the resolved
path. -/
theorem sensitive_file_gate (fs : FileSystem) (pathStr : Str) (base p : List Str)
    (hres : fs.resolve pathStr = some p)
    (hex : fs.fileExists p = true)
    (hin : isRelativeTo p (fs.resolveDir base) = true)
    (hsens : isSensitivePath p = true) :
    (∃ e : FileAccessError,
      validateFilePath fs pathStr (some base) false false = .error e ∧
      pathName p <:+: e.msg ∧
      strOf "--allow-sensitive" <:+: e.msg ∧
      (∀ q : Str, e.msg ≠ strOf "Path not found: " ++ q)) ∧
    validateFilePath fs pathStr (some base) true false = .ok p := by
  constructor
  · refine ⟨⟨strOf "Sensitive file access blocked: " ++ pathName p ++
      strOf "\nUse --allow-sensitive flag to override"⟩, ?_, ?_, ?_, ?_⟩
    · rw [validateFilePath, hres]
      dsimp only
      rw [if_neg (by simp [hex]), if_neg (by simp [hin])]
      rw [sensitiveGate, if_pos (by simp [hsens]), if_neg (by simp)]
    · exact ⟨strOf "Sensitive file access blocked: ",
        strOf "\nUse --allow-sensitive flag to override", by simp⟩
    · have hsplit : strOf "\nUse --allow-sensitive flag to override"
          = strOf "\nUse " ++ strOf "--allow-sensitive" ++ strOf " flag to override" := by
        decide
      refine ⟨strOf "Sensitive file access blocked: " ++ pathName p ++ strOf "\nUse ",
        strOf " flag to override", ?_⟩
      rw [hsplit]
      simp
    · intro q e
      have hS : strOf "Sensitive file access blocked: "
          = 'S' :: strOf "ensitive file access blocked: " := by decide
      have hP : strOf "Path not found: " = 'P' :: strOf "ath not found: " := by decide
      rw [hS, hP] at e
      simp only [FileAccessError.mk.injEq, List.cons_append] at e
      exact cons_ne_cons_of_head 'S' 'P' _ _ (by decide) e
  · rw [validateFilePath, hres]
    dsimp only
    rw [if_neg (by simp [hex]), if_neg (by simp [hin])]
    rw [sensitiveGate, if_neg (by simp)]

/-- The filesystem used by the C6 witness: `".env"` resolves to
`/work/.env`, which exists inside `/work`. -/
def fsEnv : FileSystem :=
  { resolve := fun s => if s = strOf ".env" then some [strOf "work", strOf ".env"] else none
  , fileExists := fun p => p = [strOf "work", strOf ".env"]
  , resolveDir := fun p => p
  , isatty := false
  , confirm := false }

/-- Witness for `sensitive_file_gate` at the spec's `.env` scenario. -/
theorem sensitive_file_gate_witness :
    (∃ e : FileAccessError,
      validateFilePath fsEnv (strOf ".env") (some [strOf "work"]) false false = .error e ∧
      pathName [strOf "work", strOf ".env"] <:+: e.msg ∧
      strOf "--allow-sensitive" <:+: e.msg ∧
      (∀ q : Str, e.msg ≠ strOf "Path not found: " ++ q)) ∧
    validateFilePath fsEnv (strOf ".env") (some [strOf "work"]) true false
      = .ok [strOf "work", strOf ".env"] :=
  sensitive_file_gate fsEnv (strOf ".env") [strOf "work"] [strOf "work", strOf ".env"]
    (by decide) (by decide) (by decide) (by decide)

/-! ## ProviderManager.find_model (`nexus/core/provider_manager.py`)

The enabled providers and their (successfully listed) model catalogs are
modelled as an ordered association list (registration order, as iterated
by `list_providers`).  `find_model` searches linearly and returns the
first id-or-display-name match; it has no ambiguity signalling of any
kind - its result type is `Option (provider, model)`. -/

structure ModelInfo where
  id : Str
  name : Str
  provider : Str
  context_window : Int
  supports_streaming : Bool
  supports_functions : Bool
  cost_per_1k_tokens : Option Int
  deriving DecidableEq, Repr

abbrev ProviderCatalog := List (Str × List ModelInfo)

/-- The inner loop of `find_model`: first model whose id or display name
equals the query. -/
def findModelIn (models : List ModelInfo) (modelId : Str) : Option ModelInfo :=
  models.find? (fun m => decide (m.id = modelId) || decide (m.name = modelId))

/-- `find_model` without a provider qualifier: scan enabled providers in
order, return the first match. -/
def findModelAcross (catalog : ProviderCatalog) (modelId : Str) : Option (Str × ModelInfo) :=
  match catalog with
  | [] => none
  | (pname, models) :: rest =>
    match findModelIn models modelId with
    | some m => some (pname, m)
    | none => findModelAcross rest modelId

/-- `find_model(model_id, provider_name=None)`. -/
def findModel (catalog : ProviderCatalog) (modelId : Str) (providerName : Option Str) :
    Option (Str × ModelInfo) :=
  match providerName with
  | some pname =>
    match assocLookup catalog pname with
    | none => none
    | some models => (findModelIn models modelId).map (fun m => (pname, m))
  | none => findModelAcross catalog modelId

def sharedModelP1 : ModelInfo :=
  ⟨strOf "shared-model", strOf "Shared Model", strOf "p1", 8192, true, false, none⟩

def sharedModelP2 : ModelInfo :=
  ⟨strOf "shared-model", strOf "Shared Model", strOf "p2", 8192, true, false, none⟩

/-- Counterexample to C2: with two enabled providers both exposing id
`"shared-model"`, `find_model` returns a plain first-match result - the
very same value as when only the first provider exposes the model - so
the caller receives no ambiguity signal; only found (`some`) versus
not-found (`none`) is distinguishable. -/
theorem findModel_no_ambiguity_signal :
    findModel [(strOf "p1", [sharedModelP1]), (strOf "p2", [sharedModelP2])]
        (strOf "shared-model") none = some (strOf "p1", sharedModelP1) ∧
    findModel [(strOf "p1", [sharedModelP1])]
        (strOf "shared-model") none = some (strOf "p1", sharedModelP1) ∧
    findModel [] (strOf "shared-model") none = none := ⟨by decide, by decide, rfl⟩

/-- C2 (amended) - Model resolution returns the first match: when several
enabled providers expose a matching model, `find_model` with a bare id
returns `some` of the first provider's match in registration order -
indistinguishable from a unique match - while no match at all returns
`none`; `find_model` therefore distinguishes found from not-found but
does not signal ambiguity. -/
theorem findModel_first_match (p1 p2 : Str) (l1 l2 : List ModelInfo)
    (m1 : ModelInfo) (mid : Str) (h1 : findModelIn l1 mid = some m1) :
    findModel [(p1, l1), (p2, l2)] mid none = some (p1, m1) ∧
    findModel [(p1, l1)] mid none = some (p1, m1) ∧
    (∀ (cat : ProviderCatalog) (mid' : Str),
      (∀ pm ∈ cat, findModelIn pm.2 mid' = none) →
      findModel cat mid' none = none) := by
  refine ⟨?_, ?_, ?_⟩
  · rw [findModel, findModelAcross, h1]
  · rw [findModel, findModelAcross, h1]
  · intro cat mid' h
    rw [findModel]
    induction cat with
    | nil => rfl
    | cons pm rest ih =>
      obtain ⟨pname, models⟩ := pm
      rw [findModelAcross, h (pname, models) (List.mem_cons_self _ _)]
      exact ih (fun q hq => h q (List.mem_cons_of_mem _ hq))

/-- Witness for `findModel_first_match` at the shared-model catalog. -/
theorem findModel_first_match_witness :
    findModel [(strOf "p1", [sharedModelP1]), (strOf "p2", [sharedModelP2])]
        (strOf "shared-model") none = some (strOf "p1", sharedModelP1) ∧
    findModel [(strOf "p1", [sharedModelP1])]
        (strOf "shared-model") none = some (strOf "p1", sharedModelP1) ∧
    (∀ (cat : ProviderCatalog) (mid' : Str),
      (∀ pm ∈ cat, findModelIn pm.2 mid' = none) →
      findModel cat mid' none = none) :=
  findModel_first_match (strOf "p1") (strOf "p2") [sharedModelP1] [sharedModelP2]
    sharedModelP1 (strOf "shared-model") (by decide)

/-- C8 - Cache expiry semantics: after a successful `set` at time `t`,
`get` with `expiry_seconds = -1` returns `None` whenever the clock has not
gone backwards, and `get` with any expiry strictly greater than the
elapsed time returns exactly the stored value. -/
theorem except_bind_ok {E A B : Type} (x : A) (f : A → Except E B) :
    ((Except.ok x : Except E A) >>= f) = f x := rfl

theorem except_bind_error {E A B : Type} (e : E) (f : A → Except E B) :
    ((Except.error e : Except E A) >>= f) = Except.error e := rfl

theorem cacheGet_jsonContent (jv : Json) (now expiry : Int) :
    cacheGet (.jsonContent jv) now expiry
      = match cacheGetBody (.jsonContent jv) now expiry with
        | .ok v => .ok v
        | .error e =>
          if e = .jsonDecodeError ∨ e = .osError ∨ e = .keyError then .ok none
          else .error e := rfl

theorem cache_expiry_semantics (file : CacheFile) (t now expiry : Int) (j : Json)
    (hel : t ≤ now) (hexp : now - t < expiry) :
    cacheSet false file t (.js j)
      = .ok (.jsonContent (.obj [(strOf "timestamp", .num t), (strOf "value", j)])) ∧
    cacheGet (.jsonContent (.obj [(strOf "timestamp", .num t), (strOf "value", j)]))
      now (-1) = .ok none ∧
    cacheGet (.jsonContent (.obj [(strOf "timestamp", .num t), (strOf "value", j)]))
      now expiry = .ok (some j) := by
  have hbody : ∀ e : Int,
      cacheGetBody (.jsonContent (.obj [(strOf "timestamp", .num t), (strOf "value", j)]))
        now e = if now - t > e then Except.ok none else Except.ok (some j) := fun e => rfl
  refine ⟨rfl, ?_, ?_⟩
  · rw [cacheGet_jsonContent, hbody, if_pos (by omega)]
  · rw [cacheGet_jsonContent, hbody, if_neg (by omega)]

/-- Witness for `cache_expiry_semantics` at `t = 0`, `now = 5`,
`expiry = 3600`, value `42`. -/
theorem cache_expiry_semantics_witness :
    cacheSet false .missing 0 (.js (.num 42))
      = .ok (.jsonContent (.obj [(strOf "timestamp", .num 0), (strOf "value", .num 42)])) ∧
    cacheGet (.jsonContent (.obj [(strOf "timestamp", .num 0), (strOf "value", .num 42)]))
      5 (-1) = .ok none ∧
    cacheGet (.jsonContent (.obj [(strOf "timestamp", .num 0), (strOf "value", .num 42)]))
      5 3600 = .ok (some (.num 42)) :=
  cache_expiry_semantics .missing 0 5 3600 (.num 42) (by decide) (by decide)

/-- Counterexample to C10: a cache file whose JSON parses to a non-object
(here the empty array) makes `CacheManager.get` raise an uncaught
`TypeError` at `data["timestamp"]` - the `except` clauses cover only
`json.JSONDecodeError`, `OSError` and `KeyError`. -/
theorem cacheGet_typeError_on_nonobject :
    cacheGet (.jsonContent (.arr [])) 0 3600 = .error .typeError := rfl

/-- C10 (amended) - Cache operations never raise, except for
shape-confusing JSON: `set` always returns normally (serialization and
I/O errors are swallowed); `get` returns `None` for a missing file, an
unreadable file, invalid JSON, a JSON object without `"timestamp"`, and a
fresh-enough object without `"value"`; but a file whose JSON is not an
object (or whose timestamp is not a number) raises an uncaught
`TypeError`. -/
theorem cache_never_raises_amended :
    (∀ (ioFails : Bool) (file : CacheFile) (now : Int) (v : PyVal),
      ∃ f, cacheSet ioFails file now v = .ok f) ∧
    (∀ now expiry : Int, cacheGet .missing now expiry = .ok none) ∧
    (∀ now expiry : Int, cacheGet .ioError now expiry = .ok none) ∧
    (∀ now expiry : Int, cacheGet .invalidJson now expiry = .ok none) ∧
    (∀ (fields : List (Str × Json)) (now expiry : Int),
      getField fields (strOf "timestamp") = none →
      cacheGet (.jsonContent (.obj fields)) now expiry = .ok none) ∧
    (∀ (fields : List (Str × Json)) (ts now expiry : Int),
      getField fields (strOf "timestamp") = some (.num ts) →
      getField fields (strOf "value") = none →
      cacheGet (.jsonContent (.obj fields)) now expiry = .ok none) := by
  refine ⟨?_, fun _ _ => rfl, fun _ _ => rfl, fun _ _ => rfl, ?_, ?_⟩
  · intro ioFails file now v
    cases v with
    | js j =>
      cases ioFails with
      | false => exact ⟨_, rfl⟩
      | true => exact ⟨file, rfl⟩
    | unserializable => exact ⟨file, rfl⟩
  · intro fields now expiry h
    have hsub : pySubscript (.obj fields) (strOf "timestamp") = .error .keyError := by
      rw [pySubscript, h]
    have hbody : cacheGetBody (.jsonContent (.obj fields)) now expiry
        = .error .keyError := by
      rw [cacheGetBody, hsub, except_bind_error]
    rw [cacheGet_jsonContent, hbody]
    rfl
  · intro fields ts now expiry hts hv
    have hsub : pySubscript (.obj fields) (strOf "timestamp") = .ok (.num ts) := by
      rw [pySubscript, hts]
    have hsubv : pySubscript (.obj fields) (strOf "value") = .error .keyError := by
      rw [pySubscript, hv]
    have hbody : cacheGetBody (.jsonContent (.obj fields)) now expiry
        = if now - ts > expiry then Except.ok none else Except.error .keyError := by
      rw [cacheGetBody, hsub, except_bind_ok]
      simp only [pyAsNumber, except_bind_ok]
      by_cases hexp : now - ts > expiry
      · rw [if_pos hexp, if_pos hexp]
        rfl
      · rw [if_neg hexp, if_neg hexp, hsubv, except_bind_error]
    rw [cacheGet_jsonContent, hbody]
    by_cases hexp : now - ts > expiry
    · rw [if_pos hexp]
    · rw [if_neg hexp]
      rfl

/-- Witness for `cache_never_raises_amended` applied at concrete states:
a failing write, an object without a timestamp, and a fresh object
without a value. -/
theorem cache_never_raises_amended_witness :
    (∃ f, cacheSet true .missing 0 (.js (.num 1)) = .ok f) ∧
    cacheGet (.jsonContent (.obj [])) 0 3600 = .ok none ∧
    cacheGet (.jsonContent (.obj [(strOf "timestamp", .num 0)])) 1 3600 = .ok none :=
  ⟨cache_never_raises_amended.1 true .missing 0 (.js (.num 1)),
   cache_never_raises_amended.2.2.2.2.1 [] 0 3600 rfl,
   cache_never_raises_amended.2.2.2.2.2 [(strOf "timestamp", .num 0)] 0 1 3600 rfl rfl⟩

end Nexus
